import Mathlib

/-!
Verification of the rule-matching and coverage-analysis engine of the legal
request router (server/src/services/ruleEngine.ts and
server/src/services/ruleCoverageAnalyzer.ts), as a shallow embedding.

Modelling conventions:
* JavaScript runtime values that flow through conditions are modelled by
  `JsVal` (strings and numbers); JavaScript numbers are modelled as integers
  plus `NaN` (the engine's data uses integer-valued numerics; floating point
  fractions play no role in the verified properties).
* `undefined`/absent record fields are modelled with `Option`.
* JavaScript `Array.prototype.sort` with a consistent comparator is a stable
  sort; it is modelled by `jsSort`, a stable insertion sort driven by the
  integer comparator.
* `Math.round(x)` on the exact rationals `100*c/t` appearing here (t ∈
  {7, 9, 63}) never meets an exact half and the double-precision evaluation
  cannot flip the result, so it is modelled by exact round-half-up.
-/

namespace Routing

/-- JavaScript numbers as used by the engine: an integer or NaN. -/
inductive JsNum where
  | nan : JsNum
  | int : Int → JsNum
deriving DecidableEq, Repr

/-- A JavaScript value appearing in a condition or an extracted-info field:
`string | number`. -/
inductive JsVal where
  | str : String → JsVal
  | num : JsNum → JsVal
deriving DecidableEq, Repr

/-- JavaScript `String(v)` on the values above. -/
def jsToString : JsVal → String
  | .str s => s
  | .num (.int i) => toString i
  | .num .nan => "NaN"

/-- JavaScript `toLowerCase()` on the ASCII data the engine handles,
modelled over the character list (the kernel cannot reduce the byte-level
`String.mapAux` behind the library lowercase function). -/
def jsLower (s : String) : String := String.mk (s.data.map Char.toLower)

/-- JavaScript `Number(s)` restricted to integer-valued numerics: the
whitespace-trimmed empty string is 0, an integer literal is its value,
anything else is NaN. -/
def jsStrToNumber (s : String) : JsNum :=
  let t := s.trim
  if t = "" then .int 0
  else
    match t.toInt? with
    | some i => .int i
    | none => .nan

/-- JavaScript `Number(v)`. -/
def jsToNumber : JsVal → JsNum
  | .num n => n
  | .str s => jsStrToNumber s

/-- JavaScript `>` after numeric coercion: any NaN operand yields false. -/
def jsNumGt : JsNum → JsNum → Bool
  | .int a, .int b => b < a
  | _, _ => false

/-- JavaScript `<` after numeric coercion: any NaN operand yields false. -/
def jsNumLt : JsNum → JsNum → Bool
  | .int a, .int b => a < b
  | _, _ => false

/-- Whether `needle` occurs as a contiguous sublist of the character list. -/
def charsIncluded (needle : List Char) : List Char → Bool
  | [] => needle.isEmpty
  | c :: rest => needle.isPrefixOf (c :: rest) || charsIncluded needle rest

/-- JavaScript `haystack.includes(needle)`: substring test. -/
def jsIncludes (haystack needle : String) : Bool :=
  charsIncluded needle.data haystack.data

/-- A condition of a rule (`{field, operator, value}`).  The field and
operator arrive from JSON as plain strings, so they are modelled as `String`
rather than closed enumerations: the engine must tolerate unknown names. -/
structure Condition where
  field : String
  operator : String
  value : JsVal
deriving DecidableEq, Repr

/-- A rule's routing action. -/
structure RoutingAction where
  assignTo : String
deriving DecidableEq, Repr

/-- An admin-defined routing rule. -/
structure Rule where
  id : String
  name : String
  description : Option String
  enabled : Bool
  priority : Int
  conditions : List Condition
  action : RoutingAction
  createdAt : Option String
  matchCount : Option Int
deriving DecidableEq, Repr

/-- The structured fields extracted from a conversation
(`ExtractedInfo` in types.ts). -/
structure ExtractedInfo where
  requestType : Option String
  location : Option String
  value : Option Int
  department : Option String
  urgency : Option String
  rawText : String
deriving DecidableEq, Repr

/-- JavaScript `info[field]` on an `ExtractedInfo` record: the typed fields
by name, `rawText` as a string, any other name is `undefined` (`none`). -/
def infoGet (info : ExtractedInfo) (field : String) : Option JsVal :=
  if field = "requestType" then info.requestType.map JsVal.str
  else if field = "location" then info.location.map JsVal.str
  else if field = "value" then info.value.map (fun v => JsVal.num (JsNum.int v))
  else if field = "department" then info.department.map JsVal.str
  else if field = "urgency" then info.urgency.map JsVal.str
  else if field = "rawText" then some (JsVal.str info.rawText)
  else none

/-- ruleEngine.ts `evaluateCondition`: one field/operator/value test against
the extracted info.  A missing field or an unknown operator yields false. -/
def evaluateCondition (condition : Condition) (info : ExtractedInfo) : Bool :=
  match infoGet info condition.field with
  | none => false
  | some fieldValue =>
    if condition.operator = "equals" then
      jsLower (jsToString fieldValue) == jsLower (jsToString condition.value)
    else if condition.operator = "contains" then
      jsIncludes (jsLower (jsToString fieldValue)) (jsLower (jsToString condition.value))
    else if condition.operator = "greater_than" then
      jsNumGt (jsToNumber fieldValue) (jsToNumber condition.value)
    else if condition.operator = "less_than" then
      jsNumLt (jsToNumber fieldValue) (jsToNumber condition.value)
    else if condition.operator = "not_equals" then
      !(jsLower (jsToString fieldValue) == jsLower (jsToString condition.value))
    else false

/-- ruleEngine.ts `evaluateRule`: a disabled rule never matches; otherwise
all conditions must hold (AND). -/
def evaluateRule (rule : Rule) (info : ExtractedInfo) : Bool :=
  rule.enabled && rule.conditions.all (fun condition => evaluateCondition condition info)

/-- ruleEngine.ts `couldMatch`: a disabled rule never matches; a condition on
a field not yet extracted counts as potentially satisfiable; a condition on a
present field must actually hold. -/
def couldMatch (rule : Rule) (info : ExtractedInfo) : Bool :=
  rule.enabled && rule.conditions.all (fun condition =>
    match infoGet info condition.field with
    | none => true
    | some _ => evaluateCondition condition info)

/-- JavaScript truthiness of an optional string field (absent and `""` are
falsy). -/
def truthyStr : Option String → Bool
  | none => false
  | some s => !(s == "")

/-- JavaScript truthiness of an optional number field (absent and `0` are
falsy). -/
def truthyInt : Option Int → Bool
  | none => false
  | some v => !(v == 0)

/-- ruleEngine.ts `calculateConfidence`: base 50, boosts per truthy extracted
field, then +20 capped at 98 when a rule matched, else -30 floored at 15.
`Math.round` is the identity on these integers. -/
def calculateConfidence (info : ExtractedInfo) (matchedRule : Option Rule) : Int :=
  let confidence : Int := 50
  let confidence := if truthyStr info.requestType then confidence + 20 else confidence
  let confidence := if truthyStr info.location then confidence + 20 else confidence
  let confidence := if truthyInt info.value then confidence + 5 else confidence
  let confidence := if truthyStr info.department then confidence + 5 else confidence
  if matchedRule.isSome then min (confidence + 20) 98 else max (confidence - 30) 15

/-- Stable insertion of `x` after every `y` with `cmp y x ≤ 0`; building
block of `jsSort`. -/
def insertCmp (cmp : α → α → Int) (x : α) : List α → List α
  | [] => [x]
  | y :: ys => if cmp y x ≤ 0 then y :: insertCmp cmp x ys else x :: y :: ys

/-- JavaScript `Array.prototype.sort(cmp)` for a consistent integer
comparator: stable, ascending in `cmp`. -/
def jsSort (cmp : α → α → Int) (xs : List α) : List α :=
  xs.foldl (fun acc x => insertCmp cmp x acc) []

/-- The descending-priority comparator `(a, b) => b.priority - a.priority`. -/
def cmpPriorityDesc (a b : Rule) : Int := b.priority - a.priority

/-- The ascending-priority comparator `(a, b) => a.priority - b.priority`. -/
def cmpPriorityAsc (a b : Rule) : Int := a.priority - b.priority

/-- Steps 1–2 of `route`: rules sorted by priority descending, filtered to
the potential matches. -/
def potentialMatchesOf (info : ExtractedInfo) (rules : List Rule) : List Rule :=
  (jsSort cmpPriorityDesc rules).filter (fun rule => couldMatch rule info)

/-- One step of the `fieldValuesByRule` map building in
`findDifferentiatingFields`: Set.add on the per-field value set. -/
def setAdd (v : String) (s : List String) : List String :=
  if s.contains v then s else s ++ [v]

/-- Insertion-ordered `Map.set`-with-`Set.add` used by
`findDifferentiatingFields`. -/
def mapAdd (field v : String) : List (String × List String) → List (String × List String)
  | [] => [(field, [v])]
  | (k, s) :: rest =>
    if k = field then (k, setAdd v s) :: rest else (k, s) :: mapAdd field v rest

/-- Processing of one condition in `findDifferentiatingFields`: only fields
not yet present in the info are collected. -/
def collectStep (info : ExtractedInfo) (m : List (String × List String))
    (condition : Condition) : List (String × List String) :=
  match infoGet info condition.field with
  | none => mapAdd condition.field (jsLower (jsToString condition.value)) m
  | some _ => m

/-- Processing of one rule's conditions in `findDifferentiatingFields`. -/
def collectRule (info : ExtractedInfo) (m : List (String × List String))
    (rule : Rule) : List (String × List String) :=
  rule.conditions.foldl (collectStep info) m

/-- The fully built `fieldValuesByRule` map of `findDifferentiatingFields`. -/
def collectMissing (info : ExtractedInfo) (rules : List Rule) :
    List (String × List String) :=
  rules.foldl (collectRule info) []

/-- ruleEngine.ts `findDifferentiatingFields`: the condition fields across
the candidate rules that are not yet present in the info (every collected
set has size ≥ 1, so the final filter keeps every collected field). -/
def findDifferentiatingFields (rules : List Rule) (info : ExtractedInfo) : List String :=
  ((collectMissing info rules).filter (fun kv => 1 ≤ kv.2.length)).map (fun kv => kv.1)

/-- ruleEngine.ts `generateClarificationQuestion`: fixed per-field prompt
table with a generic fallback. -/
def generateClarificationQuestion (field : String) : String :=
  if field = "requestType" then
    "What type of request is this? (e.g., Employment contract, Sales contract, NDA)"
  else if field = "location" then "Where are you located?"
  else if field = "value" then "What is the contract value?"
  else if field = "department" then "Which department is this for?"
  else if field = "urgency" then "How urgent is this request?"
  else "Could you provide more details?"

/-- The `needsClarification` block of a routing decision. -/
structure Clarification where
  missingFields : List String
  questions : List String
deriving DecidableEq, Repr

/-- The output of `route` (`RoutingDecision` in types.ts). -/
structure RoutingDecision where
  matched : Bool
  assignTo : Option String
  confidence : Int
  matchedRule : Option Rule
  extractedInfo : ExtractedInfo
  reasoning : String
  needsClarification : Option Clarification
deriving DecidableEq, Repr

/-- JavaScript `rule.description || ""`. -/
def descOrEmpty (d : Option String) : String := d.getD ""

/-- ruleEngine.ts `route`: potential matches by descending priority, then
fallback / single confident match / clarification / lowest-priority
tie-break.  The sorted list of a non-empty list is non-empty, so the `headD`
default in the tie-break branch is never used. -/
def route (extractedInfo : ExtractedInfo) (rules : List Rule) : RoutingDecision :=
  let potentialMatches := potentialMatchesOf extractedInfo rules
  match potentialMatches with
  | [] =>
    { matched := false, assignTo := none, confidence := 20, matchedRule := none,
      extractedInfo := extractedInfo,
      reasoning := "No routing rule matches this request. Routing to general legal team.",
      needsClarification := none }
  | [matchedRule] =>
    { matched := true, assignTo := some matchedRule.action.assignTo,
      confidence := calculateConfidence extractedInfo (some matchedRule),
      matchedRule := some matchedRule, extractedInfo := extractedInfo,
      reasoning := "Matched rule \"" ++ matchedRule.name ++ "\" (Priority " ++
        toString matchedRule.priority ++ "). " ++ descOrEmpty matchedRule.description,
      needsClarification := none }
  | m1 :: m2 :: rest =>
    let differentiatingFields := findDifferentiatingFields (m1 :: m2 :: rest) extractedInfo
    if 0 < differentiatingFields.length then
      { matched := false, assignTo := none, confidence := 30, matchedRule := none,
        extractedInfo := extractedInfo,
        reasoning := "Multiple potential matches found. Need more information to determine the best route.",
        needsClarification := some
          { missingFields := differentiatingFields,
            questions := differentiatingFields.map generateClarificationQuestion } }
    else
      let topMatch := (jsSort cmpPriorityAsc (m1 :: m2 :: rest)).headD m1
      { matched := true, assignTo := some topMatch.action.assignTo, confidence := 35,
        matchedRule := some topMatch, extractedInfo := extractedInfo,
        reasoning := "Multiple similar rules could match. Selected \"" ++ topMatch.name ++
          "\" (Priority " ++ toString topMatch.priority ++ ") - highest priority.",
        needsClarification := none }

/-- The output of `testRule`; the source field `matches` is a reserved word
in Lean and is rendered `isMatch`. -/
structure TestRuleResult where
  isMatch : Bool
  reason : String
deriving DecidableEq, Repr

/-- ruleEngine.ts `testRule`: strict evaluation plus a reason string naming
the conditions that failed strict evaluation. -/
def testRule (rule : Rule) (extractedInfo : ExtractedInfo) : TestRuleResult :=
  if evaluateRule rule extractedInfo then
    { isMatch := true,
      reason := "All conditions satisfied. Would route to " ++ rule.action.assignTo }
  else
    let failedConditions := rule.conditions.filter
      (fun condition => !(evaluateCondition condition extractedInfo))
    { isMatch := false,
      reason := "Failed conditions: " ++ String.intercalate ", "
        (failedConditions.map (fun c => c.field ++ " " ++ c.operator ++ " " ++ jsToString c.value)) }

/-- legal.constants.ts `REQUEST_TYPES`: the fixed request-type axis of the
coverage matrix. -/
def REQUEST_TYPES : List String :=
  ["contracts", "employment_hr", "litigation_disputes", "intellectual_property",
   "regulatory_compliance", "corporate_ma", "real_estate", "privacy_data",
   "general_advice"]

/-- legal.constants.ts `LOCATIONS`: the fixed location axis of the coverage
matrix. -/
def LOCATIONS : List String :=
  ["australia", "united states", "united kingdom", "canada", "europe",
   "asia_pacific", "other"]

/-- The `{id, name, priority, action}` projection stored in matrix cells. -/
structure RuleSummary where
  id : String
  name : String
  priority : Int
  action : RoutingAction
deriving DecidableEq, Repr

/-- The cell-summary map in `buildCoverageMatrix`. -/
def summarize (rule : Rule) : RuleSummary :=
  { id := rule.id, name := rule.name, priority := rule.priority,
    action := { assignTo := rule.action.assignTo } }

/-- The descending-priority comparator on cell summaries. -/
def cmpSummaryDesc (a b : RuleSummary) : Int := b.priority - a.priority

/-- The per-cell rule filter of `buildCoverageMatrix`: the condition loop
overwrites `requestTypeMatches`/`locationMatches` on every condition of that
field, so the LAST condition of each field decides; a rule with no condition
on an axis is unconstrained on it; value/department/urgency conditions and
all operators are ignored. -/
def coversCell (rule : Rule) (requestType location : String) : Bool :=
  let m := rule.conditions.foldl
    (fun (p : Bool × Bool) condition =>
      let p := if condition.field = "requestType"
               then (jsLower requestType == jsLower (jsToString condition.value), p.2)
               else p
      if condition.field = "location"
      then (p.1, jsLower location == jsLower (jsToString condition.value))
      else p)
    (true, true)
  let hasRequestTypeCondition := rule.conditions.any (fun c => c.field == "requestType")
  let hasLocationCondition := rule.conditions.any (fun c => c.field == "location")
  (!hasRequestTypeCondition || m.1) && (!hasLocationCondition || m.2)

/-- One cell of the coverage matrix. -/
structure Cell where
  covered : Bool
  rules : List RuleSummary
deriving DecidableEq, Repr

/-- The final value of one matrix cell in `buildCoverageMatrix`: initialised
uncovered, then overwritten when at least one rule covers the combination. -/
def matrixCell (rules : List Rule) (requestType location : String) : Cell :=
  let matchingRules := jsSort cmpSummaryDesc
    ((rules.filter (fun rule => coversCell rule requestType location)).map summarize)
  if 0 < matchingRules.length then { covered := true, rules := matchingRules }
  else { covered := false, rules := [] }

/-- ruleCoverageAnalyzer.ts `buildCoverageMatrix`: the insertion-ordered
object of rows (one per request type) of cells (one per location). -/
def buildCoverageMatrix (rules : List Rule) : List (String × List (String × Cell)) :=
  REQUEST_TYPES.map (fun rt =>
    (rt, LOCATIONS.map (fun loc => (loc, matrixCell rules rt loc))))

/-- Object-key lookup into the matrix (`matrix[requestType]?.[location]`). -/
def matrixLookup (matrix : List (String × List (String × Cell)))
    (requestType location : String) : Option Cell :=
  match matrix.find? (fun row => row.1 == requestType) with
  | none => none
  | some row => (row.2.find? (fun lc => lc.1 == location)).map (fun lc => lc.2)

/-- One coverage gap entry. -/
structure CoverageGap where
  requestType : String
  location : String
  reason : String
deriving DecidableEq, Repr

/-- ruleCoverageAnalyzer.ts `findGaps`: one entry per uncovered cell, in
matrix iteration order. -/
def findGaps (matrix : List (String × List (String × Cell))) : List CoverageGap :=
  List.flatten (matrix.map (fun row =>
    (row.2.filter (fun lc => !lc.2.covered)).map (fun lc =>
      { requestType := row.1, location := lc.1,
        reason := "No rule covers " ++ row.1 ++ " requests from " ++ lc.1 })))

/-- One coverage conflict entry (the source nests the combination as
`{requestType, location}`; it is flattened here). -/
structure CoverageConflict where
  requestType : String
  location : String
  rules : List RuleSummary
  reason : String
deriving DecidableEq, Repr

/-- The distinct priorities of a cell's rules in ascending order, matching
the iteration order of a JavaScript object with integer-like numeric keys. -/
def distinctPrioritiesAsc (rules : List RuleSummary) : List Int :=
  jsSort (fun a b => a - b) ((rules.map (fun r => r.priority)).eraseDups)

/-- The conflict entries contributed by one cell in `findConflicts`:
priority groups of size ≥ 2 among the ≥ 2 matching rules. -/
def conflictsForCell (requestType location : String) (cell : Cell) : List CoverageConflict :=
  if 1 < cell.rules.length then
    ((distinctPrioritiesAsc cell.rules).map (fun p =>
        (p, cell.rules.filter (fun r => r.priority == p)))).filterMap (fun pg =>
      if 1 < pg.2.length then
        some { requestType := requestType, location := location, rules := pg.2,
               reason := "Multiple rules with priority " ++ toString pg.1 ++
                 " match this combination. First rule will be used, but this may be unintentional." }
      else none)
  else []

/-- ruleCoverageAnalyzer.ts `findConflicts` over the whole matrix. -/
def findConflicts (matrix : List (String × List (String × Cell))) : List CoverageConflict :=
  List.flatten (matrix.map (fun row =>
    List.flatten (row.2.map (fun lc => conflictsForCell row.1 lc.1 lc.2))))

/-- `Math.round((covered / total) * 100)` as exact round-half-up (see the
header note on floating point). -/
def jsRoundRatioPct (covered total : Nat) : Int :=
  ((2 * covered * 100 + total) / (2 * total) : Nat)

/-- The result triple of `calculateCoverageScore`. -/
structure ScoreInfo where
  score : Int
  totalCombinations : Nat
  coveredCombinations : Nat
deriving DecidableEq, Repr

/-- ruleCoverageAnalyzer.ts `calculateCoverageScore`: counts cells and
covered cells over the matrix. -/
def calculateCoverageScore (matrix : List (String × List (String × Cell))) : ScoreInfo :=
  let cells := List.flatten (matrix.map (fun row => row.2))
  let total := cells.length
  let covered := (cells.filter (fun lc => lc.2.covered)).length
  { score := if 0 < total then jsRoundRatioPct covered total else 0,
    totalCombinations := total, coveredCombinations := covered }

/-- One warning entry (`type` ∈ gap/conflict/orphan, `severity` ∈
high/medium/low). -/
structure CoverageWarning where
  type : String
  severity : String
  message : String
  affectedRules : Option (List String)
deriving DecidableEq, Repr

/-- Covered-location count of one request type, via matrix lookups as in
`generateWarnings`/`generateSummary`. -/
def coveredLocCount (matrix : List (String × List (String × Cell)))
    (requestType : String) : Nat :=
  (LOCATIONS.filter (fun loc =>
    ((matrixLookup matrix requestType loc).map Cell.covered).getD false)).length

/-- Covered-request-type count of one location. -/
def coveredRtCount (matrix : List (String × List (String × Cell)))
    (location : String) : Nat :=
  (REQUEST_TYPES.filter (fun rt =>
    ((matrixLookup matrix rt location).map Cell.covered).getD false)).length

/-- The gap warnings of `generateWarnings`: zero coverage is high severity,
partial coverage is high below 30% and medium otherwise. -/
def gapWarnings (matrix : List (String × List (String × Cell))) : List CoverageWarning :=
  REQUEST_TYPES.filterMap (fun rt =>
    if coveredLocCount matrix rt = 0 then
      some { type := "gap", severity := "high",
             message := "Critical: \"" ++ rt ++
               "\" has NO coverage in any location. All requests will fall back to general team.",
             affectedRules := none }
    else if coveredLocCount matrix rt < LOCATIONS.length then
      some { type := "gap",
             severity :=
               if jsRoundRatioPct (coveredLocCount matrix rt) LOCATIONS.length < 30
               then "high" else "medium",
             message := "\"" ++ rt ++ "\" only has " ++
               toString (jsRoundRatioPct (coveredLocCount matrix rt) LOCATIONS.length) ++
               "% location coverage (" ++ toString (coveredLocCount matrix rt) ++ "/" ++
               toString LOCATIONS.length ++ " locations).",
             affectedRules := none }
    else none)

/-- The per-conflict medium warnings of `generateWarnings`. -/
def conflictWarnings (conflicts : List CoverageConflict) : List CoverageWarning :=
  conflicts.map (fun conflict =>
    { type := "conflict", severity := "medium", message := conflict.reason,
      affectedRules := some (conflict.rules.map (fun r => r.id)) })

/-- Total number of cell-summary occurrences of a rule id across the matrix
(the `ruleUsageCount` accumulation of `generateWarnings`). -/
def ruleUsage (matrix : List (String × List (String × Cell))) (id : String) : Nat :=
  List.sum ((List.flatten (matrix.map (fun row => row.2))).map (fun lc =>
    (lc.2.rules.filter (fun s => s.id == id)).length))

/-- The orphan warnings of `generateWarnings`: enabled rules that appear in
no cell. -/
def orphanWarnings (rules : List Rule)
    (matrix : List (String × List (String × Cell))) : List CoverageWarning :=
  rules.filterMap (fun rule =>
    if ruleUsage matrix rule.id = 0 then
      some { type := "orphan", severity := "low",
             message := "Rule \"" ++ rule.name ++
               "\" never matches any requestType/location combination. It may have impossible conditions or be shadowed by higher-priority rules.",
             affectedRules := some [rule.id] }
    else none)

/-- The severity rank used by the final warning sort (high 0, medium 1,
low 2; only these three severities occur). -/
def severityRank (s : String) : Int :=
  if s = "high" then 0 else if s = "medium" then 1 else 2

/-- ruleCoverageAnalyzer.ts `generateWarnings`: gap, conflict and orphan
warnings, stably sorted by severity. -/
def generateWarnings (conflicts : List CoverageConflict) (rules : List Rule)
    (matrix : List (String × List (String × Cell))) : List CoverageWarning :=
  jsSort (fun a b => severityRank a.severity - severityRank b.severity)
    (gapWarnings matrix ++ conflictWarnings conflicts ++ orphanWarnings rules matrix)

/-- One axis entry of the summary. -/
structure AxisStat where
  covered : Nat
  total : Nat
  percentage : Int
deriving DecidableEq, Repr

/-- ruleCoverageAnalyzer.ts `generateSummary`: per-request-type and
per-location coverage statistics. -/
def generateSummary (matrix : List (String × List (String × Cell))) :
    List (String × AxisStat) × List (String × AxisStat) :=
  (REQUEST_TYPES.map (fun rt =>
     let covered := coveredLocCount matrix rt
     (rt, { covered := covered, total := LOCATIONS.length,
            percentage := jsRoundRatioPct covered LOCATIONS.length })),
   LOCATIONS.map (fun loc =>
     let covered := coveredRtCount matrix loc
     (loc, { covered := covered, total := REQUEST_TYPES.length,
             percentage := jsRoundRatioPct covered REQUEST_TYPES.length })))

/-- The full coverage report (`CoverageReport`), with the summary's two maps
as separate fields. -/
structure CoverageReport where
  score : Int
  totalCombinations : Nat
  coveredCombinations : Nat
  gaps : List CoverageGap
  conflicts : List CoverageConflict
  warnings : List CoverageWarning
  matrix : List (String × List (String × Cell))
  summaryByRequestType : List (String × AxisStat)
  summaryByLocation : List (String × AxisStat)
deriving DecidableEq, Repr

/-- The body of `analyzeCoverage` after the enabled filter. -/
def reportOf (enabledRules : List Rule) : CoverageReport :=
  let matrix := buildCoverageMatrix enabledRules
  let gaps := findGaps matrix
  let conflicts := findConflicts matrix
  let si := calculateCoverageScore matrix
  let warnings := generateWarnings conflicts enabledRules matrix
  let summary := generateSummary matrix
  { score := si.score, totalCombinations := si.totalCombinations,
    coveredCombinations := si.coveredCombinations, gaps := gaps,
    conflicts := conflicts, warnings := warnings, matrix := matrix,
    summaryByRequestType := summary.1, summaryByLocation := summary.2 }

/-- ruleCoverageAnalyzer.ts `analyzeCoverage`: filters to enabled rules,
then builds the full report. -/
def analyzeCoverage (rules : List Rule) : CoverageReport :=
  reportOf (rules.filter (fun r => r.enabled))

/-- The rules list stored in the matrix cell of a report for a combination
(empty when the combination is absent from the matrix). -/
def cellRules (report : CoverageReport) (requestType location : String) : List RuleSummary :=
  ((matrixLookup report.matrix requestType location).map Cell.rules).getD []

/-- State-passing view of `route`: the decision together with the caller's
rules array after the call.  The source reads the caller's array only
through the spread copy `[...rules]` and never writes to it or to a rule
object (both in-place sorts act on freshly created arrays; `matchCount` is
never assigned), so the post-state is the unchanged input. -/
def routeS (info : ExtractedInfo) (rules : List Rule) : RoutingDecision × List Rule :=
  (route info rules, rules)

/-- State-passing view of `analyzeCoverage`: the source only filters and
maps the input array into fresh structures, so the post-state is the
unchanged input. -/
def analyzeCoverageS (rules : List Rule) : CoverageReport × List Rule :=
  (analyzeCoverage rules, rules)

/-- Modelled from the spec (claim C1's reading): a rule covers a cell when
EVERY `requestType` condition's value equals the cell's request type
case-insensitively, and symmetrically for EVERY `location` condition.  This
is the spec's sentence, to be compared with the source's `coversCell`. -/
def coversCellSpec (rule : Rule) (requestType location : String) : Bool :=
  (rule.conditions.all (fun c =>
    !(c.field == "requestType") || (jsLower requestType == jsLower (jsToString c.value)))) &&
  (rule.conditions.all (fun c =>
    !(c.field == "location") || (jsLower location == jsLower (jsToString c.value))))

/-- The amended coverage predicate: the LAST condition of each axis decides
(its operator ignored), and an axis with no condition is unconstrained. -/
def coversCellLastWins (rule : Rule) (requestType location : String) : Bool :=
  (match (rule.conditions.filter (fun c => c.field == "requestType")).getLast? with
   | none => true
   | some c => jsLower requestType == jsLower (jsToString c.value)) &&
  (match (rule.conditions.filter (fun c => c.field == "location")).getLast? with
   | none => true
   | some c => jsLower location == jsLower (jsToString c.value))

/-- Modelled from the spec (claim C4's reading): presence-based confidence of
a single-potential-match decision: 50, +20/+20/+5/+5 per PRESENT field
(value 0 counts as present), then +20 capped at 98. -/
def specConfidenceSingleMatch (info : ExtractedInfo) : Int :=
  min (50 + (if info.requestType.isSome then 20 else 0)
          + (if info.location.isSome then 20 else 0)
          + (if info.value.isSome then 5 else 0)
          + (if info.department.isSome then 5 else 0) + 20) 98

/-- The amended confidence base: 50 plus boosts per TRUTHY field (value 0
and empty strings add nothing), as the code computes it. -/
def truthyConfidenceBase (info : ExtractedInfo) : Int :=
  50 + (if truthyStr info.requestType then 20 else 0)
     + (if truthyStr info.location then 20 else 0)
     + (if truthyInt info.value then 5 else 0)
     + (if truthyStr info.department then 5 else 0)

/-- An `equals` condition on `requestType`. -/
def condRT (v : String) : Condition :=
  { field := "requestType", operator := "equals", value := JsVal.str v }

/-- An `equals` condition on `location`. -/
def condLoc (v : String) : Condition :=
  { field := "location", operator := "equals", value := JsVal.str v }

/-- A concrete enabled rule for witnesses and counterexamples. -/
def mkRule (id : String) (priority : Int) (conditions : List Condition)
    (assignTo : String) : Rule :=
  { id := id, name := id, description := none, enabled := true,
    priority := priority, conditions := conditions,
    action := { assignTo := assignTo }, createdAt := none, matchCount := none }

/-- An `ExtractedInfo` with no extracted fields. -/
def emptyInfo : ExtractedInfo :=
  { requestType := none, location := none, value := none, department := none,
    urgency := none, rawText := "test" }

/-- C1's counterexample rule: two `requestType` conditions; the last one
matches `general_advice`, the first does not. -/
def cexRuleC1 : Rule :=
  mkRule "cex1" 1 [condRT "contracts", condRT "general_advice"] "a@example.com"

/-- C4's counterexample info: `value` present but zero. -/
def cexInfoC4 : ExtractedInfo :=
  { emptyInfo with value := some 0 }

/-- A rule with no conditions (matches everything when enabled). -/
def emptyCondRule : Rule := mkRule "empty" 1 [] "fallback@example.com"

/-- Scenario-B style rules for the ambiguity witness. -/
def ruleContractsOnly : Rule := mkRule "A" 10 [condRT "contracts"] "a@example.com"

/-- Scenario-B second rule: contracts AND australia. -/
def ruleContractsAustralia : Rule :=
  mkRule "B" 5 [condRT "contracts", condLoc "australia"] "b@example.com"

/-- Info with only the request type extracted. -/
def infoContracts : ExtractedInfo := { emptyInfo with requestType := some "contracts" }

/-- Tie-break witness rules: identical conditions, priorities 5 and 10. -/
def ruleTieLow : Rule := mkRule "low" 5 [condRT "contracts"] "low@example.com"

/-- Tie-break witness rule with the higher priority value. -/
def ruleTieHigh : Rule := mkRule "high" 10 [condRT "contracts"] "high@example.com"

/-- A disabled rule with a satisfied condition, for C6/C10. -/
def disabledRule : Rule :=
  { mkRule "dis" 7 [condRT "contracts"] "dis@example.com" with enabled := false }

/-- A condition with an operator name outside the five known ones. -/
def unknownOpCond : Condition :=
  { field := "requestType", operator := "regex_match", value := JsVal.str "contracts" }

/-- The key list of the insertion-ordered map used by
`findDifferentiatingFields`. -/
def keys (m : List (String × List String)) : List String := m.map Prod.fst

/-! Helper lemmas about the sort and the differentiating-field collection. -/

theorem mem_insertCmp {cmp : α → α → Int} {x a : α} {l : List α} :
    a ∈ insertCmp cmp x l ↔ a = x ∨ a ∈ l := by
  induction l with
  | nil => simp [insertCmp]
  | cons y ys ih =>
    simp only [insertCmp]
    split
    · simp only [List.mem_cons, ih]
      tauto
    · simp [List.mem_cons]

theorem length_insertCmp (cmp : α → α → Int) (x : α) (l : List α) :
    (insertCmp cmp x l).length = l.length + 1 := by
  induction l with
  | nil => simp [insertCmp]
  | cons y ys ih =>
    simp only [insertCmp]
    split
    · simp [ih]
    · simp

theorem mem_foldl_insertCmp {cmp : α → α → Int} {a : α} :
    ∀ (l acc : List α),
      (a ∈ l.foldl (fun acc x => insertCmp cmp x acc) acc ↔ a ∈ l ∨ a ∈ acc)
  | [], acc => by simp
  | x :: xs, acc => by
    rw [List.foldl_cons, mem_foldl_insertCmp xs]
    simp only [mem_insertCmp, List.mem_cons]
    tauto

theorem mem_jsSort {cmp : α → α → Int} {a : α} {l : List α} :
    a ∈ jsSort cmp l ↔ a ∈ l := by
  rw [jsSort, mem_foldl_insertCmp]
  simp

theorem length_foldl_insertCmp {cmp : α → α → Int} :
    ∀ (l acc : List α),
      (l.foldl (fun acc x => insertCmp cmp x acc) acc).length = l.length + acc.length
  | [], acc => by simp
  | x :: xs, acc => by
    rw [List.foldl_cons, length_foldl_insertCmp xs, length_insertCmp]
    simp only [List.length_cons]
    omega

theorem length_jsSort (cmp : α → α → Int) (l : List α) :
    (jsSort cmp l).length = l.length := by
  rw [jsSort, length_foldl_insertCmp]
  simp

theorem pairwise_insertCmp {cmp : α → α → Int}
    (htot : ∀ a b : α, ¬ cmp a b ≤ 0 → cmp b a ≤ 0)
    (htrans : ∀ a b c : α, cmp a b ≤ 0 → cmp b c ≤ 0 → cmp a c ≤ 0)
    {l : List α} (x : α) (hl : l.Pairwise (fun a b => cmp a b ≤ 0)) :
    (insertCmp cmp x l).Pairwise (fun a b => cmp a b ≤ 0) := by
  induction l with
  | nil => simp [insertCmp]
  | cons y ys ih =>
    rcases List.pairwise_cons.mp hl with ⟨hy, hys⟩
    simp only [insertCmp]
    split
    case isTrue h =>
      refine List.pairwise_cons.mpr ⟨?_, ih hys⟩
      intro z hz
      rcases mem_insertCmp.mp hz with rfl | hz
      · exact h
      · exact hy z hz
    case isFalse h =>
      have hxy := htot y x h
      refine List.pairwise_cons.mpr ⟨?_, hl⟩
      intro z hz
      rcases List.mem_cons.mp hz with rfl | hz
      · exact hxy
      · exact htrans x y z hxy (hy z hz)

theorem pairwise_foldl_insertCmp {cmp : α → α → Int}
    (htot : ∀ a b : α, ¬ cmp a b ≤ 0 → cmp b a ≤ 0)
    (htrans : ∀ a b c : α, cmp a b ≤ 0 → cmp b c ≤ 0 → cmp a c ≤ 0) :
    ∀ (l acc : List α), acc.Pairwise (fun a b => cmp a b ≤ 0) →
      (l.foldl (fun acc x => insertCmp cmp x acc) acc).Pairwise (fun a b => cmp a b ≤ 0)
  | [], acc, h => h
  | x :: xs, acc, h =>
    pairwise_foldl_insertCmp htot htrans xs _ (pairwise_insertCmp htot htrans x h)

theorem pairwise_jsSort {cmp : α → α → Int}
    (htot : ∀ a b : α, ¬ cmp a b ≤ 0 → cmp b a ≤ 0)
    (htrans : ∀ a b c : α, cmp a b ≤ 0 → cmp b c ≤ 0 → cmp a c ≤ 0)
    (l : List α) :
    (jsSort cmp l).Pairwise (fun a b => cmp a b ≤ 0) :=
  pairwise_foldl_insertCmp htot htrans l [] (List.Pairwise.nil)

theorem jsSort_head_le {cmp : α → α → Int}
    (htot : ∀ a b : α, ¬ cmp a b ≤ 0 → cmp b a ≤ 0)
    (htrans : ∀ a b c : α, cmp a b ≤ 0 → cmp b c ≤ 0 → cmp a c ≤ 0)
    {l tl : List α} {hd : α} (h : jsSort cmp l = hd :: tl) :
    ∀ x ∈ l, cmp hd x ≤ 0 := by
  intro x hx
  have hx' : x ∈ hd :: tl := h ▸ mem_jsSort.mpr hx
  rcases List.mem_cons.mp hx' with rfl | hx'
  · by_contra hc
    exact hc (htot x x hc)
  · have hp := pairwise_jsSort htot htrans (l := l)
    rw [h] at hp
    exact (List.pairwise_cons.mp hp).1 x hx'

theorem keys_mapAdd (f v : String) :
    ∀ m : List (String × List String),
      keys (mapAdd f v m) = if f ∈ keys m then keys m else keys m ++ [f]
  | [] => by simp [mapAdd, keys]
  | (k', s) :: rest => by
    simp only [mapAdd]
    split
    case isTrue h =>
      subst h
      simp [keys]
    case isFalse h =>
      have ih := keys_mapAdd f v rest
      by_cases hf : f ∈ keys rest
      · simp only [keys, List.map_cons, List.mem_cons] at ih ⊢
        simp only [keys] at ih hf
        simp [hf, Ne.symm h, ih]
      · simp only [keys, List.map_cons, List.mem_cons] at ih ⊢
        simp only [keys] at ih hf
        simp [hf, Ne.symm h, ih]

theorem mem_keys_mapAdd {f v k : String} (m : List (String × List String)) :
    k ∈ keys (mapAdd f v m) ↔ k = f ∨ k ∈ keys m := by
  rw [keys_mapAdd]
  split
  case isTrue h =>
    constructor
    · exact Or.inr
    · rintro (rfl | hk)
      · exact h
      · exact hk
  case isFalse h =>
    simp only [List.mem_append, List.mem_singleton]
    tauto

theorem vals_mapAdd {f v : String} :
    ∀ m : List (String × List String), (∀ kv ∈ m, kv.2 ≠ []) →
      ∀ kv ∈ mapAdd f v m, kv.2 ≠ []
  | [], _ => by
    simp only [mapAdd, List.mem_singleton]
    rintro kv rfl
    simp
  | (k', s) :: rest, h => by
    simp only [mapAdd]
    split
    case isTrue hk =>
      intro kv hkv
      rcases List.mem_cons.mp hkv with rfl | hkv
      · have hs : s ≠ [] := h (k', s) (List.mem_cons_self _ _)
        simp only [setAdd]
        split
        · exact hs
        · simp
      · exact h kv (List.mem_cons_of_mem _ hkv)
    case isFalse hk =>
      intro kv hkv
      rcases List.mem_cons.mp hkv with rfl | hkv
      · exact h (k', s) (List.mem_cons_self _ _)
      · exact vals_mapAdd rest (fun kv hkv => h kv (List.mem_cons_of_mem _ hkv)) kv hkv

theorem mem_keys_collectStep {info : ExtractedInfo} {c : Condition} {k : String}
    (m : List (String × List String)) :
    k ∈ keys (collectStep info m c) ↔
      (c.field = k ∧ infoGet info c.field = none) ∨ k ∈ keys m := by
  unfold collectStep
  cases h : infoGet info c.field with
  | none =>
    rw [mem_keys_mapAdd]
    constructor
    · rintro (rfl | hm)
      · exact Or.inl ⟨rfl, rfl⟩
      · exact Or.inr hm
    · rintro (⟨rfl, _⟩ | hm)
      · exact Or.inl rfl
      · exact Or.inr hm
  | some v =>
    show k ∈ keys m ↔ _
    constructor
    · exact Or.inr
    · rintro (⟨_, hnone⟩ | hm)
      · cases hnone
      · exact hm

theorem vals_collectStep {info : ExtractedInfo} {c : Condition}
    (m : List (String × List String)) (h : ∀ kv ∈ m, kv.2 ≠ []) :
    ∀ kv ∈ collectStep info m c, kv.2 ≠ [] := by
  unfold collectStep
  cases infoGet info c.field with
  | none => exact vals_mapAdd m h
  | some v => exact h

theorem mem_keys_condFold {info : ExtractedInfo} {k : String} :
    ∀ (conds : List Condition) (m : List (String × List String)),
      (k ∈ keys (conds.foldl (collectStep info) m) ↔
        (∃ c ∈ conds, c.field = k ∧ infoGet info c.field = none) ∨ k ∈ keys m)
  | [], m => by simp
  | c :: cs, m => by
    rw [List.foldl_cons, mem_keys_condFold cs, mem_keys_collectStep]
    simp only [List.mem_cons]
    constructor
    · rintro (⟨c', hc', hck, hcn⟩ | (⟨hck, hcn⟩ | hm))
      · exact Or.inl ⟨c', Or.inr hc', hck, hcn⟩
      · exact Or.inl ⟨c, Or.inl rfl, hck, hcn⟩
      · exact Or.inr hm
    · rintro (⟨c', rfl | hc', hck, hcn⟩ | hm)
      · exact Or.inr (Or.inl ⟨hck, hcn⟩)
      · exact Or.inl ⟨c', hc', hck, hcn⟩
      · exact Or.inr (Or.inr hm)

theorem vals_condFold {info : ExtractedInfo} :
    ∀ (conds : List Condition) (m : List (String × List String)),
      (∀ kv ∈ m, kv.2 ≠ []) → ∀ kv ∈ conds.foldl (collectStep info) m, kv.2 ≠ []
  | [], _, h => h
  | c :: cs, m, h => by
    rw [List.foldl_cons]
    exact vals_condFold cs _ (vals_collectStep m h)

theorem mem_keys_ruleFold {info : ExtractedInfo} {k : String} :
    ∀ (rules : List Rule) (m : List (String × List String)),
      (k ∈ keys (rules.foldl (collectRule info) m) ↔
        (∃ r ∈ rules, ∃ c ∈ r.conditions, c.field = k ∧ infoGet info c.field = none) ∨
          k ∈ keys m)
  | [], m => by simp
  | r :: rs, m => by
    rw [List.foldl_cons]
    show k ∈ keys (rs.foldl (collectRule info) (collectRule info m r)) ↔ _
    rw [mem_keys_ruleFold rs]
    unfold collectRule
    rw [mem_keys_condFold]
    simp only [List.mem_cons]
    constructor
    · rintro (⟨r', hr', hc⟩ | (⟨c, hc, hck, hcn⟩ | hm))
      · exact Or.inl ⟨r', Or.inr hr', hc⟩
      · exact Or.inl ⟨r, Or.inl rfl, c, hc, hck, hcn⟩
      · exact Or.inr hm
    · rintro (⟨r', rfl | hr', hc⟩ | hm)
      · exact Or.inr (Or.inl hc)
      · exact Or.inl ⟨r', hr', hc⟩
      · exact Or.inr (Or.inr hm)

theorem vals_ruleFold {info : ExtractedInfo} :
    ∀ (rules : List Rule) (m : List (String × List String)),
      (∀ kv ∈ m, kv.2 ≠ []) → ∀ kv ∈ rules.foldl (collectRule info) m, kv.2 ≠ []
  | [], _, h => h
  | r :: rs, m, h => by
    rw [List.foldl_cons]
    exact vals_ruleFold rs _ (vals_condFold r.conditions m h)

theorem filter_collectMissing (info : ExtractedInfo) (rules : List Rule) :
    (collectMissing info rules).filter (fun kv => 1 ≤ kv.2.length) =
      collectMissing info rules := by
  apply List.filter_eq_self.mpr
  intro kv hkv
  have hne := vals_ruleFold rules [] (by simp) kv hkv
  have : 0 < kv.2.length := List.length_pos.mpr hne
  simpa using this

theorem mem_findDifferentiatingFields {rules : List Rule} {info : ExtractedInfo}
    {k : String} :
    k ∈ findDifferentiatingFields rules info ↔
      ∃ r ∈ rules, ∃ c ∈ r.conditions, c.field = k ∧ infoGet info c.field = none := by
  unfold findDifferentiatingFields
  rw [filter_collectMissing]
  show k ∈ keys (collectMissing info rules) ↔ _
  unfold collectMissing
  rw [mem_keys_ruleFold]
  constructor
  · rintro (h | hm)
    · exact h
    · simp [keys] at hm
  · exact Or.inl

theorem mem_potentialMatchesOf {info : ExtractedInfo} {rules : List Rule} {r : Rule} :
    r ∈ potentialMatchesOf info rules ↔ r ∈ rules ∧ couldMatch r info = true := by
  unfold potentialMatchesOf
  rw [List.mem_filter, mem_jsSort]

theorem couldMatch_enabled {r : Rule} {info : ExtractedInfo}
    (h : couldMatch r info = true) : r.enabled = true := by
  unfold couldMatch at h
  cases he : r.enabled
  · rw [he] at h
    simp at h
  · rfl

theorem find?_keyed_map {β : Type} (f : String → β) {l : List String} {k : String}
    (hk : k ∈ l) :
    (l.map (fun x => (x, f x))).find? (fun p => p.1 == k) = some (k, f k) := by
  induction l with
  | nil => cases hk
  | cons x xs ih =>
    rw [List.map_cons]
    by_cases hx : x = k
    · subst hx
      rw [List.find?_cons_of_pos _ (by simp)]
    · rw [List.find?_cons_of_neg _ (by simp [hx])]
      rcases List.mem_cons.mp hk with rfl | hk'
      · exact absurd rfl hx
      · exact ih hk'

theorem matrixLookup_build (rules : List Rule) {rt loc : String}
    (hrt : rt ∈ REQUEST_TYPES) (hloc : loc ∈ LOCATIONS) :
    matrixLookup (buildCoverageMatrix rules) rt loc = some (matrixCell rules rt loc) := by
  unfold matrixLookup buildCoverageMatrix
  rw [find?_keyed_map _ hrt]
  show Option.map (fun lc => lc.2)
      (List.find? (fun lc => lc.1 == loc)
        (LOCATIONS.map (fun x => (x, matrixCell rules rt x)))) =
    some (matrixCell rules rt loc)
  rw [find?_keyed_map (fun x => matrixCell rules rt x) hloc]
  rfl

theorem matrixCell_rules_eq (rules : List Rule) (rt loc : String) :
    (matrixCell rules rt loc).rules =
      jsSort cmpSummaryDesc
        ((rules.filter (fun rule => coversCell rule rt loc)).map summarize) := by
  by_cases h : 0 < (jsSort cmpSummaryDesc
      ((rules.filter (fun rule => coversCell rule rt loc)).map summarize)).length
  · simp [matrixCell, h]
  · have hz : (jsSort cmpSummaryDesc
        ((rules.filter (fun rule => coversCell rule rt loc)).map summarize)).length = 0 := by
      omega
    simp [matrixCell, h, List.eq_nil_of_length_eq_zero hz]

theorem mem_matrixCell_rules {rules : List Rule} {rt loc : String} {s : RuleSummary} :
    s ∈ (matrixCell rules rt loc).rules ↔
      ∃ r ∈ rules, coversCell r rt loc = true ∧ summarize r = s := by
  rw [matrixCell_rules_eq, mem_jsSort, List.mem_map]
  constructor
  · rintro ⟨r, hr, rfl⟩
    rcases List.mem_filter.mp hr with ⟨hmem, hcov⟩
    exact ⟨r, hmem, hcov, rfl⟩
  · rintro ⟨r, hmem, hcov, rfl⟩
    exact ⟨r, List.mem_filter.mpr ⟨hmem, hcov⟩, rfl⟩

theorem matrixCell_covered_iff {rules : List Rule} {rt loc : String} :
    (matrixCell rules rt loc).covered = true ↔
      ∃ r ∈ rules, coversCell r rt loc = true := by
  constructor
  · intro h
    by_cases hl : 0 < (jsSort cmpSummaryDesc
        ((rules.filter (fun rule => coversCell rule rt loc)).map summarize)).length
    · rw [length_jsSort, List.length_map] at hl
      rcases List.exists_mem_of_ne_nil _ (List.length_pos.mp hl) with ⟨r, hr⟩
      rcases List.mem_filter.mp hr with ⟨hmem, hcov⟩
      exact ⟨r, hmem, hcov⟩
    · exfalso
      simp [matrixCell, hl] at h
  · rintro ⟨r, hmem, hcov⟩
    have hm : r ∈ rules.filter (fun rule => coversCell rule rt loc) :=
      List.mem_filter.mpr ⟨hmem, hcov⟩
    have hl : 0 < (jsSort cmpSummaryDesc
        ((rules.filter (fun rule => coversCell rule rt loc)).map summarize)).length := by
      rw [length_jsSort, List.length_map]
      refine List.length_pos.mpr (fun hnil => ?_)
      rw [hnil] at hm
      cases hm
    simp [matrixCell, hl]

theorem filter_flatten_length {β : Type} (p : β → Bool) :
    ∀ L : List (List β),
      ((List.flatten L).filter p).length = List.sum (L.map (fun l => (l.filter p).length))
  | [] => by simp
  | l :: ls => by
    rw [List.flatten_cons, List.filter_append, List.length_append,
      filter_flatten_length p ls]
    simp

theorem coveredCombinations_eq (E : List Rule) :
    (reportOf E).coveredCombinations =
      List.sum (REQUEST_TYPES.map (fun rt =>
        (LOCATIONS.filter (fun loc => (matrixCell E rt loc).covered)).length)) := by
  show ((List.flatten
      ((List.map (fun rt => (rt, LOCATIONS.map (fun loc => (loc, matrixCell E rt loc))))
          REQUEST_TYPES).map (fun row => row.2))).filter
        (fun lc => lc.2.covered)).length = _
  rw [List.map_map, filter_flatten_length, List.map_map]
  refine congrArg List.sum (List.map_congr_left ?_)
  intro rt _
  simp only [List.filter_map, List.length_map, Function.comp]
  rfl

theorem coverFold_spec (requestType location : String) (conds : List Condition) :
    ∀ p : Bool × Bool,
      (conds.foldl
        (fun (p : Bool × Bool) condition =>
          let p := if condition.field = "requestType"
                   then (jsLower requestType == jsLower (jsToString condition.value), p.2)
                   else p
          if condition.field = "location"
          then (p.1, jsLower location == jsLower (jsToString condition.value))
          else p) p) =
      ((match (conds.filter (fun c => c.field == "requestType")).getLast? with
        | none => p.1
        | some c => jsLower requestType == jsLower (jsToString c.value)),
       (match (conds.filter (fun c => c.field == "location")).getLast? with
        | none => p.2
        | some c => jsLower location == jsLower (jsToString c.value))) := by
  induction conds using List.reverseRecOn with
  | nil => intro p; simp
  | append_singleton l c ih =>
    intro p
    rw [List.foldl_append, List.foldl_cons, List.foldl_nil, ih]
    by_cases hrt : c.field = "requestType"
    · have hloc : ¬ c.field = "location" := by rw [hrt]; decide
      simp [hrt, hloc, List.filter_append, List.filter_singleton, List.getLast?_concat]
    · by_cases hloc : c.field = "location"
      · simp [hrt, hloc, List.filter_append, List.filter_singleton, List.getLast?_concat]
      · simp [hrt, hloc, List.filter_append, List.filter_singleton]

theorem coversCell_eq_lastWins (rule : Rule) (requestType location : String) :
    coversCell rule requestType location = coversCellLastWins rule requestType location := by
  unfold coversCell coversCellLastWins
  rw [coverFold_spec]
  rcases hrt : (rule.conditions.filter (fun c => c.field == "requestType")).getLast? with _ | c1 <;>
    rcases hloc : (rule.conditions.filter (fun c => c.field == "location")).getLast? with _ | c2
  · have h1 : rule.conditions.any (fun c => c.field == "requestType") = false := by
      rw [List.any_eq_false]
      exact List.filter_eq_nil_iff.mp (List.getLast?_eq_none_iff.mp hrt)
    have h2 : rule.conditions.any (fun c => c.field == "location") = false := by
      rw [List.any_eq_false]
      exact List.filter_eq_nil_iff.mp (List.getLast?_eq_none_iff.mp hloc)
    rw [hrt, hloc]
    simp [h1, h2]
  · have h1 : rule.conditions.any (fun c => c.field == "requestType") = false := by
      rw [List.any_eq_false]
      exact List.filter_eq_nil_iff.mp (List.getLast?_eq_none_iff.mp hrt)
    have hne : rule.conditions.filter (fun c => c.field == "location") ≠ [] := by
      intro hnil
      rw [hnil] at hloc
      cases hloc
    have h2 : rule.conditions.any (fun c => c.field == "location") = true := by
      rw [List.any_eq_true]
      rcases List.exists_mem_of_ne_nil _ hne with ⟨x, hx⟩
      rcases List.mem_filter.mp hx with ⟨hm, hp⟩
      exact ⟨x, hm, hp⟩
    rw [hrt, hloc]
    simp [h1, h2]
  · have hne : rule.conditions.filter (fun c => c.field == "requestType") ≠ [] := by
      intro hnil
      rw [hnil] at hrt
      cases hrt
    have h1 : rule.conditions.any (fun c => c.field == "requestType") = true := by
      rw [List.any_eq_true]
      rcases List.exists_mem_of_ne_nil _ hne with ⟨x, hx⟩
      rcases List.mem_filter.mp hx with ⟨hm, hp⟩
      exact ⟨x, hm, hp⟩
    have h2 : rule.conditions.any (fun c => c.field == "location") = false := by
      rw [List.any_eq_false]
      exact List.filter_eq_nil_iff.mp (List.getLast?_eq_none_iff.mp hloc)
    rw [hrt, hloc]
    simp [h1, h2]
  · have hne1 : rule.conditions.filter (fun c => c.field == "requestType") ≠ [] := by
      intro hnil
      rw [hnil] at hrt
      cases hrt
    have hne2 : rule.conditions.filter (fun c => c.field == "location") ≠ [] := by
      intro hnil
      rw [hnil] at hloc
      cases hloc
    have h1 : rule.conditions.any (fun c => c.field == "requestType") = true := by
      rw [List.any_eq_true]
      rcases List.exists_mem_of_ne_nil _ hne1 with ⟨x, hx⟩
      rcases List.mem_filter.mp hx with ⟨hm, hp⟩
      exact ⟨x, hm, hp⟩
    have h2 : rule.conditions.any (fun c => c.field == "location") = true := by
      rw [List.any_eq_true]
      rcases List.exists_mem_of_ne_nil _ hne2 with ⟨x, hx⟩
      rcases List.mem_filter.mp hx with ⟨hm, hp⟩
      exact ⟨x, hm, hp⟩
    rw [hrt, hloc]
    simp [h1, h2]


theorem jsSort_cons_ne_nil (cmp : α → α → Int) (x : α) (xs : List α) :
    jsSort cmp (x :: xs) ≠ [] := by
  intro h
  have hl := length_jsSort cmp (x :: xs)
  rw [h] at hl
  simp at hl

theorem headD_jsSort_mem (cmp : α → α → Int) (x d : α) (xs : List α) :
    (jsSort cmp (x :: xs)).headD d ∈ x :: xs := by
  cases hs : jsSort cmp (x :: xs) with
  | nil => exact absurd hs (jsSort_cons_ne_nil cmp x xs)
  | cons hd tl =>
    rw [List.headD_cons]
    exact mem_jsSort.mp (hs ▸ List.mem_cons_self hd tl)

theorem jsSortAsc_headD_priority_le (x d : Rule) (xs : List Rule) :
    ∀ r ∈ x :: xs, ((jsSort cmpPriorityAsc (x :: xs)).headD d).priority ≤ r.priority := by
  intro r hr
  have htot : ∀ a b : Rule, ¬ cmpPriorityAsc a b ≤ 0 → cmpPriorityAsc b a ≤ 0 := by
    intro a b hab
    unfold cmpPriorityAsc at *
    omega
  have htrans : ∀ a b c : Rule,
      cmpPriorityAsc a b ≤ 0 → cmpPriorityAsc b c ≤ 0 → cmpPriorityAsc a c ≤ 0 := by
    intro a b c h1 h2
    unfold cmpPriorityAsc at *
    omega
  cases hs : jsSort cmpPriorityAsc (x :: xs) with
  | nil => exact absurd hs (jsSort_cons_ne_nil _ _ _)
  | cons hd tl =>
    rw [List.headD_cons]
    have := jsSort_head_le htot htrans hs r hr
    unfold cmpPriorityAsc at this
    omega

theorem route_matchedRule_mem {info : ExtractedInfo} {rules : List Rule} {m : Rule}
    (h : (route info rules).matchedRule = some m) :
    m ∈ potentialMatchesOf info rules := by
  rcases hp : potentialMatchesOf info rules with _ | ⟨a, _ | ⟨b, rest⟩⟩
  · simp only [route, hp] at h
    exact Option.noConfusion h
  · simp only [route, hp] at h
    have h2 : a = m := by simpa using h
    rw [← h2]
    exact List.mem_cons_self _ _
  · by_cases hd : 0 < (findDifferentiatingFields (a :: b :: rest) info).length
    · simp only [route, hp, if_pos hd] at h
      exact Option.noConfusion h
    · simp only [route, hp, if_neg hd] at h
      have h2 : (jsSort cmpPriorityAsc (a :: b :: rest)).headD a = m := by
        simpa using h
      rw [← h2]
      exact headD_jsSort_mem cmpPriorityAsc a a (b :: rest)

theorem matrixLookup_some_src {E : List Rule} {rt loc : String} {cell : Cell}
    (h : matrixLookup (buildCoverageMatrix E) rt loc = some cell) :
    ∃ rt2 loc2, cell = matrixCell E rt2 loc2 := by
  unfold matrixLookup at h
  cases hf : (buildCoverageMatrix E).find? (fun row => row.1 == rt) with
  | none =>
    rw [hf] at h
    cases h
  | some row =>
    rw [hf] at h
    have hrow := List.mem_of_find?_eq_some hf
    unfold buildCoverageMatrix at hrow
    rcases List.mem_map.mp hrow with ⟨rt2, _, rfl⟩
    dsimp only at h
    cases hf2 : (LOCATIONS.map (fun loc2 => (loc2, matrixCell E rt2 loc2))).find?
        (fun lc => lc.1 == loc) with
    | none =>
      rw [hf2] at h
      cases h
    | some lc =>
      rw [hf2] at h
      have hlc := List.mem_of_find?_eq_some hf2
      rcases List.mem_map.mp hlc with ⟨loc2, _, rfl⟩
      refine ⟨rt2, loc2, ?_⟩
      have := Option.some.inj h
      rw [← this]

theorem conflictsForCell_rules_sub {rt loc : String} {cell : Cell} {cf : CoverageConflict}
    (hcf : cf ∈ conflictsForCell rt loc cell) : ∀ s ∈ cf.rules, s ∈ cell.rules := by
  unfold conflictsForCell at hcf
  split at hcf
  · rcases List.mem_filterMap.mp hcf with ⟨pg, hpg, hsome⟩
    split at hsome
    · have hcf2 := Option.some.inj hsome
      rw [← hcf2]
      intro s hs
      rcases List.mem_map.mp hpg with ⟨p, _, rfl⟩
      exact (List.mem_filter.mp hs).1
    · cases hsome
  · cases hcf

theorem findConflicts_rules_src {E : List Rule} {cf : CoverageConflict}
    (hcf : cf ∈ findConflicts (buildCoverageMatrix E)) :
    ∀ s ∈ cf.rules, ∃ r ∈ E, summarize r = s := by
  unfold findConflicts at hcf
  rcases List.mem_flatten.mp hcf with ⟨inner, hinner, hcf2⟩
  rcases List.mem_map.mp hinner with ⟨row, hrow, rfl⟩
  rcases List.mem_flatten.mp hcf2 with ⟨inner2, hinner2, hcf3⟩
  rcases List.mem_map.mp hinner2 with ⟨lc, hlc, rfl⟩
  unfold buildCoverageMatrix at hrow
  rcases List.mem_map.mp hrow with ⟨rt, _, rfl⟩
  dsimp only at hlc hcf3
  rcases List.mem_map.mp hlc with ⟨loc, _, rfl⟩
  intro s hs
  have hcell := conflictsForCell_rules_sub hcf3 s hs
  rcases mem_matrixCell_rules.mp hcell with ⟨r, hr, _, hsum⟩
  exact ⟨r, hr, hsum⟩

theorem orphan_warning_src {conflicts : List CoverageConflict} {E : List Rule}
    {matrix : List (String × List (String × Cell))} {w : CoverageWarning}
    (hw : w ∈ generateWarnings conflicts E matrix) (ht : w.type = "orphan") :
    ∃ r ∈ E, w.affectedRules = some [r.id] := by
  unfold generateWarnings at hw
  rw [mem_jsSort] at hw
  rcases List.mem_append.mp hw with hw2 | hw2
  · rcases List.mem_append.mp hw2 with hw3 | hw3
    · exfalso
      unfold gapWarnings at hw3
      rcases List.mem_filterMap.mp hw3 with ⟨rt, _, hsome⟩
      split at hsome
      · rw [← Option.some.inj hsome] at ht
        simp at ht
      · split at hsome
        · rw [← Option.some.inj hsome] at ht
          simp at ht
        · cases hsome
    · exfalso
      unfold conflictWarnings at hw3
      rcases List.mem_map.mp hw3 with ⟨cf, _, hcfw⟩
      rw [← hcfw] at ht
      simp at ht
  · unfold orphanWarnings at hw2
    rcases List.mem_filterMap.mp hw2 with ⟨r, hr, hsome⟩
    split at hsome
    · refine ⟨r, hr, ?_⟩
      rw [← Option.some.inj hsome]
    · cases hsome


/-! Claim theorems. -/

/-- C7: strict condition evaluation is a total boolean function: a missing
field yields false regardless of operator; an operator outside the five known
ones yields false; equals/not_equals and contains stringify both sides and
compare case-insensitively; greater_than/less_than coerce numerically and
yield false when the field value coerces to NaN. -/
theorem evaluateCondition_total_cases (c : Condition) (info : ExtractedInfo) :
    (infoGet info c.field = none → evaluateCondition c info = false)
    ∧ (c.operator ∉ (["equals", "contains", "greater_than", "less_than",
        "not_equals"] : List String) → evaluateCondition c info = false)
    ∧ (∀ v, infoGet info c.field = some v →
        ((c.operator = "equals" →
            (evaluateCondition c info = true ↔
              jsLower (jsToString v) = jsLower (jsToString c.value)))
         ∧ (c.operator = "not_equals" →
            (evaluateCondition c info = true ↔
              ¬ jsLower (jsToString v) = jsLower (jsToString c.value)))
         ∧ (c.operator = "contains" →
            evaluateCondition c info =
              jsIncludes (jsLower (jsToString v)) (jsLower (jsToString c.value)))
         ∧ ((c.operator = "greater_than" ∨ c.operator = "less_than") →
            jsToNumber v = JsNum.nan → evaluateCondition c info = false))) := by
  refine ⟨?_, ?_, ?_⟩
  · intro h
    unfold evaluateCondition
    rw [h]
  · intro h
    simp only [List.mem_cons, List.mem_singleton, not_or] at h
    unfold evaluateCondition
    cases hv : infoGet info c.field
    · rfl
    · simp [h.1, h.2.1, h.2.2.1, h.2.2.2.1, h.2.2.2.2]
  · intro v hv
    unfold evaluateCondition
    rw [hv]
    refine ⟨?_, ?_, ?_, ?_⟩
    · intro hop
      simp [hop]
    · intro hop
      simp [hop]
    · intro hop
      simp [hop]
    · rintro (hop | hop) hnan <;> simp [hop, hnan, jsNumGt, jsNumLt]

/-- C7 witness: an unknown operator evaluates to false on a concrete input. -/
theorem evaluateCondition_total_cases_w :
    evaluateCondition unknownOpCond infoContracts = false :=
  (evaluateCondition_total_cases unknownOpCond infoContracts).2.1 (by decide)

/-- C10: testRule on a disabled rule whose conditions all strictly hold
returns matches=false with an empty failed-condition list in the reason. -/
theorem testRule_disabled_no_failed (rule : Rule) (info : ExtractedInfo)
    (hd : rule.enabled = false)
    (hall : ∀ c ∈ rule.conditions, evaluateCondition c info = true) :
    testRule rule info = { isMatch := false, reason := "Failed conditions: " } := by
  have hev : evaluateRule rule info = false := by
    unfold evaluateRule
    rw [hd]
    rfl
  have hfc : rule.conditions.filter
      (fun condition => !(evaluateCondition condition info)) = [] := by
    rw [List.filter_eq_nil_iff]
    intro c hc
    rw [hall c hc]
    simp
  unfold testRule
  rw [hev, hfc]
  rfl

/-- C10 witness: the disabled concrete rule with a satisfied condition. -/
theorem testRule_disabled_no_failed_w :
    disabledRule.enabled = false
    ∧ (∀ c ∈ disabledRule.conditions, evaluateCondition c infoContracts = true)
    ∧ testRule disabledRule infoContracts =
        { isMatch := false, reason := "Failed conditions: " } :=
  ⟨rfl, by decide,
   testRule_disabled_no_failed disabledRule infoContracts rfl (by decide)⟩

/-- C5: an enabled rule with an empty condition list is always a potential
match; whenever it is the only potential match, route matches it. -/
theorem emptyConditions_always_potential (rule : Rule) (info : ExtractedInfo)
    (hen : rule.enabled = true) (hc : rule.conditions = []) :
    couldMatch rule info = true
    ∧ (∀ rules, rule ∈ rules → rule ∈ potentialMatchesOf info rules)
    ∧ (∀ rules, potentialMatchesOf info rules = [rule] →
        (route info rules).matched = true
        ∧ (route info rules).matchedRule = some rule
        ∧ (route info rules).assignTo = some rule.action.assignTo) := by
  have hcm : couldMatch rule info = true := by
    unfold couldMatch
    rw [hen, hc]
    rfl
  refine ⟨hcm, ?_, ?_⟩
  · intro rules hr
    exact mem_potentialMatchesOf.mpr ⟨hr, hcm⟩
  · intro rules hp
    refine ⟨?_, ?_, ?_⟩ <;> simp [route, hp]

/-- C5 witness: the concrete condition-free rule on an empty info. -/
theorem emptyConditions_always_potential_w :
    emptyCondRule.enabled = true ∧ emptyCondRule.conditions = []
    ∧ couldMatch emptyCondRule emptyInfo = true
    ∧ (route emptyInfo [emptyCondRule]).matched = true :=
  ⟨rfl, rfl, (emptyConditions_always_potential emptyCondRule emptyInfo rfl rfl).1,
   ((emptyConditions_always_potential emptyCondRule emptyInfo rfl rfl).2.2
      [emptyCondRule] (by decide)).1⟩

/-- C4 counterexample: an info whose `value` is present but 0 with a single
potential match gets confidence 70 from the code (the truthiness test skips
value 0), while the claim's presence-based formula predicts 75. -/
theorem route_confidence_value_zero_cex :
    potentialMatchesOf cexInfoC4 [emptyCondRule] = [emptyCondRule]
    ∧ (route cexInfoC4 [emptyCondRule]).confidence = 70
    ∧ specConfidenceSingleMatch cexInfoC4 = 75 := by
  refine ⟨by decide, by decide, by decide⟩

/-- C4 (amended): with exactly one potential match, route's confidence is
min(base + 20, 98) where base adds 20/20/5/5 per TRUTHY field: value = 0 and
empty strings add nothing. -/
theorem route_single_match_confidence (info : ExtractedInfo) (rules : List Rule)
    (m : Rule) (h1 : potentialMatchesOf info rules = [m]) :
    (route info rules).confidence = min (truthyConfidenceBase info + 20) 98
    ∧ (route info rules).matched = true
    ∧ (route info rules).matchedRule = some m := by
  refine ⟨?_, by simp [route, h1], by simp [route, h1]⟩
  have hc : (route info rules).confidence = calculateConfidence info (some m) := by
    simp [route, h1]
  rw [hc]
  unfold calculateConfidence truthyConfidenceBase
  cases hb1 : truthyStr info.requestType <;> cases hb2 : truthyStr info.location <;>
    cases hb3 : truthyInt info.value <;> cases hb4 : truthyStr info.department <;>
      simp [hb1, hb2, hb3, hb4]

/-- C4 amended-claim witness at a concrete single-match input. -/
theorem route_single_match_confidence_w :
    potentialMatchesOf infoContracts [ruleContractsOnly] = [ruleContractsOnly]
    ∧ (route infoContracts [ruleContractsOnly]).confidence =
        min (truthyConfidenceBase infoContracts + 20) 98 :=
  ⟨by decide,
   (route_single_match_confidence infoContracts [ruleContractsOnly]
      ruleContractsOnly (by decide)).1⟩

/-- C2: with at least two potential matches and some candidate condition
field missing from the info, route returns matched=false, confidence 30, and
a clarification block whose missingFields are exactly the missing candidate
condition fields, with one lookup-table question per field. -/
theorem route_ambiguous_clarifies (info : ExtractedInfo) (rules : List Rule)
    (h2 : 2 ≤ (potentialMatchesOf info rules).length)
    (hmiss : ∃ r ∈ potentialMatchesOf info rules, ∃ c ∈ r.conditions,
      infoGet info c.field = none) :
    (route info rules).matched = false
    ∧ (route info rules).confidence = 30
    ∧ ∃ nc, (route info rules).needsClarification = some nc
        ∧ (∀ f, f ∈ nc.missingFields ↔
            ∃ r ∈ potentialMatchesOf info rules, ∃ c ∈ r.conditions,
              c.field = f ∧ infoGet info c.field = none)
        ∧ nc.questions = nc.missingFields.map generateClarificationQuestion := by
  rcases hp : potentialMatchesOf info rules with _ | ⟨a, _ | ⟨b, rest⟩⟩
  · rw [hp] at h2
    simp at h2
  · rw [hp] at h2
    simp at h2
  · have hdne : findDifferentiatingFields (a :: b :: rest) info ≠ [] := by
      rcases hmiss with ⟨r, hr, c, hc, hnone⟩
      rw [hp] at hr
      intro hnil
      have hfm : c.field ∈ findDifferentiatingFields (a :: b :: rest) info :=
        mem_findDifferentiatingFields.mpr ⟨r, hr, c, hc, rfl, hnone⟩
      rw [hnil] at hfm
      cases hfm
    have hlen : 0 < (findDifferentiatingFields (a :: b :: rest) info).length :=
      List.length_pos.mpr hdne
    refine ⟨by simp [route, hp, if_pos hlen], by simp [route, hp, if_pos hlen],
      ⟨findDifferentiatingFields (a :: b :: rest) info,
       (findDifferentiatingFields (a :: b :: rest) info).map
         generateClarificationQuestion⟩, by simp [route, hp, if_pos hlen], ?_, rfl⟩
    intro f
    exact mem_findDifferentiatingFields

/-- C2 witness: the spec's ambiguity scenario (contracts-only vs
contracts-and-australia with only the request type known). -/
theorem route_ambiguous_clarifies_w :
    2 ≤ (potentialMatchesOf infoContracts
          [ruleContractsOnly, ruleContractsAustralia]).length
    ∧ ((route infoContracts [ruleContractsOnly, ruleContractsAustralia]).matched = false
       ∧ (route infoContracts [ruleContractsOnly, ruleContractsAustralia]).confidence = 30
       ∧ ∃ nc, (route infoContracts
            [ruleContractsOnly, ruleContractsAustralia]).needsClarification = some nc
          ∧ (∀ f, f ∈ nc.missingFields ↔
              ∃ r ∈ potentialMatchesOf infoContracts
                  [ruleContractsOnly, ruleContractsAustralia],
                ∃ c ∈ r.conditions, c.field = f ∧ infoGet infoContracts c.field = none)
          ∧ nc.questions = nc.missingFields.map generateClarificationQuestion) :=
  ⟨by decide,
   route_ambiguous_clarifies infoContracts [ruleContractsOnly, ruleContractsAustralia]
     (by decide) (by decide)⟩

/-- C3: with at least two potential matches and no candidate condition field
missing from the info, route matches with confidence 35 and selects the
candidate with the lowest numeric priority, taking assignTo from it. -/
theorem route_tiebreak_lowest (info : ExtractedInfo) (rules : List Rule)
    (h2 : 2 ≤ (potentialMatchesOf info rules).length)
    (hnomiss : ∀ r ∈ potentialMatchesOf info rules, ∀ c ∈ r.conditions,
      infoGet info c.field ≠ none) :
    (route info rules).matched = true
    ∧ (route info rules).confidence = 35
    ∧ ∃ m, (route info rules).matchedRule = some m
        ∧ m ∈ potentialMatchesOf info rules
        ∧ (∀ r ∈ potentialMatchesOf info rules, m.priority ≤ r.priority)
        ∧ (route info rules).assignTo = some m.action.assignTo := by
  rcases hp : potentialMatchesOf info rules with _ | ⟨a, _ | ⟨b, rest⟩⟩
  · rw [hp] at h2
    simp at h2
  · rw [hp] at h2
    simp at h2
  · have hdnil : findDifferentiatingFields (a :: b :: rest) info = [] := by
      rcases hd : findDifferentiatingFields (a :: b :: rest) info with _ | ⟨f, fs⟩
      · rfl
      · exfalso
        have hf : f ∈ findDifferentiatingFields (a :: b :: rest) info := by
          rw [hd]
          exact List.mem_cons_self _ _
        rcases mem_findDifferentiatingFields.mp hf with ⟨r, hr, c, hc, _, hnone⟩
        refine hnomiss r ?_ c hc hnone
        rw [hp]
        exact hr
    have hlen : ¬ 0 < (findDifferentiatingFields (a :: b :: rest) info).length := by
      rw [hdnil]
      simp
    refine ⟨by simp [route, hp, if_neg hlen], by simp [route, hp, if_neg hlen],
      (jsSort cmpPriorityAsc (a :: b :: rest)).headD a,
      by simp [route, hp, if_neg hlen], ?_, ?_, by simp [route, hp, if_neg hlen]⟩
    · exact headD_jsSort_mem cmpPriorityAsc a a (b :: rest)
    · intro r hr
      exact jsSortAsc_headD_priority_le a a (b :: rest) r hr

/-- C3 witness: two rules with identical conditions and priorities 10 and 5;
the priority-5 rule is selected. -/
theorem route_tiebreak_lowest_w :
    2 ≤ (potentialMatchesOf infoContracts [ruleTieHigh, ruleTieLow]).length
    ∧ ((route infoContracts [ruleTieHigh, ruleTieLow]).matched = true
       ∧ (route infoContracts [ruleTieHigh, ruleTieLow]).confidence = 35
       ∧ ∃ m, (route infoContracts [ruleTieHigh, ruleTieLow]).matchedRule = some m
          ∧ m ∈ potentialMatchesOf infoContracts [ruleTieHigh, ruleTieLow]
          ∧ (∀ r ∈ potentialMatchesOf infoContracts [ruleTieHigh, ruleTieLow],
              m.priority ≤ r.priority)
          ∧ (route infoContracts [ruleTieHigh, ruleTieLow]).assignTo =
              some m.action.assignTo) :=
  ⟨by decide,
   route_tiebreak_lowest infoContracts [ruleTieHigh, ruleTieLow]
     (by decide) (by decide)⟩

/-- C1 counterexample: a rule with two requestType conditions whose LAST one
matches the cell is listed by analyzeCoverage as covering the cell, although
the claim's for-every-condition predicate rejects it. -/
theorem coverage_everyCondition_cex :
    coversCellSpec cexRuleC1 "general_advice" "australia" = false
    ∧ cellRules (analyzeCoverage [cexRuleC1]) "general_advice" "australia" =
        [summarize cexRuleC1] := by
  refine ⟨by decide, by decide⟩

/-- C1 (amended): a rule covers a cell exactly when its LAST requestType
condition (if any) equals the cell's request type case-insensitively and
likewise for its last location condition (operators ignored, missing axis
unconstrained); a cell of analyzeCoverage's matrix lists exactly the
summaries of enabled rules covering it. -/
theorem analyzeCoverage_cell_lastCondition (rules : List Rule) (rule : Rule)
    (rt loc : String) (hrt : rt ∈ REQUEST_TYPES) (hloc : loc ∈ LOCATIONS) :
    coversCell rule rt loc = coversCellLastWins rule rt loc
    ∧ (∀ s, s ∈ cellRules (analyzeCoverage rules) rt loc ↔
        ∃ r ∈ rules, r.enabled = true ∧ coversCellLastWins r rt loc = true
          ∧ summarize r = s) := by
  refine ⟨coversCell_eq_lastWins rule rt loc, ?_⟩
  intro s
  show s ∈ ((matrixLookup (buildCoverageMatrix (rules.filter (fun r => r.enabled)))
      rt loc).map Cell.rules).getD [] ↔ _
  rw [matrixLookup_build _ hrt hloc]
  show s ∈ (matrixCell (rules.filter (fun r => r.enabled)) rt loc).rules ↔ _
  rw [mem_matrixCell_rules]
  constructor
  · rintro ⟨r, hr, hcov, hsum⟩
    rcases List.mem_filter.mp hr with ⟨hmem, hen⟩
    rw [coversCell_eq_lastWins] at hcov
    exact ⟨r, hmem, hen, hcov, hsum⟩
  · rintro ⟨r, hmem, hen, hcov, hsum⟩
    rw [← coversCell_eq_lastWins] at hcov
    exact ⟨r, List.mem_filter.mpr ⟨hmem, hen⟩, hcov, hsum⟩

/-- C1 amended-claim witness at a concrete cell. -/
theorem analyzeCoverage_cell_lastCondition_w :
    "contracts" ∈ REQUEST_TYPES ∧ "australia" ∈ LOCATIONS
    ∧ (coversCell ruleContractsOnly "contracts" "australia" =
        coversCellLastWins ruleContractsOnly "contracts" "australia"
       ∧ (∀ s, s ∈ cellRules (analyzeCoverage [ruleContractsOnly])
            "contracts" "australia" ↔
          ∃ r ∈ [ruleContractsOnly], r.enabled = true
            ∧ coversCellLastWins r "contracts" "australia" = true
            ∧ summarize r = s)) :=
  ⟨by decide, by decide,
   analyzeCoverage_cell_lastCondition [ruleContractsOnly] ruleContractsOnly
     "contracts" "australia" (by decide) (by decide)⟩

/-- C6: a disabled rule is never a potential match, never the matched rule,
does not change the coverage report when added, and every cell entry,
conflict entry and orphan warning of the report traces back to an enabled
rule of the input. -/
theorem disabled_rule_invisible (r : Rule) (hr : r.enabled = false)
    (info : ExtractedInfo) (rules : List Rule) :
    couldMatch r info = false
    ∧ r ∉ potentialMatchesOf info rules
    ∧ (∀ m, (route info rules).matchedRule = some m → m.enabled = true)
    ∧ analyzeCoverage (rules ++ [r]) = analyzeCoverage rules
    ∧ (∀ rt loc s, s ∈ cellRules (analyzeCoverage rules) rt loc →
        ∃ r2 ∈ rules, r2.enabled = true ∧ summarize r2 = s)
    ∧ (∀ cf ∈ (analyzeCoverage rules).conflicts, ∀ s ∈ cf.rules,
        ∃ r2 ∈ rules, r2.enabled = true ∧ summarize r2 = s)
    ∧ (∀ w ∈ (analyzeCoverage rules).warnings, w.type = "orphan" →
        ∃ r2 ∈ rules, r2.enabled = true ∧ w.affectedRules = some [r2.id]) := by
  have hfilter : ∀ r2 ∈ rules.filter (fun x => x.enabled),
      r2 ∈ rules ∧ r2.enabled = true := by
    intro r2 h2
    exact List.mem_filter.mp h2
  refine ⟨?_, ?_, ?_, ?_, ?_, ?_, ?_⟩
  · unfold couldMatch
    rw [hr]
    rfl
  · intro hmem
    have hcm := (mem_potentialMatchesOf.mp hmem).2
    have hen := couldMatch_enabled hcm
    rw [hr] at hen
    cases hen
  · intro m hm
    exact couldMatch_enabled (mem_potentialMatchesOf.mp (route_matchedRule_mem hm)).2
  · have hE : (rules ++ [r]).filter (fun x => x.enabled) =
        rules.filter (fun x => x.enabled) := by
      rw [List.filter_append]
      simp [hr]
    unfold analyzeCoverage
    rw [hE]
  · intro rt loc s hs
    unfold cellRules at hs
    cases hl : matrixLookup (analyzeCoverage rules).matrix rt loc with
    | none =>
      rw [hl] at hs
      cases hs
    | some cell =>
      rw [hl] at hs
      have hl2 : matrixLookup (buildCoverageMatrix (rules.filter (fun x => x.enabled)))
          rt loc = some cell := hl
      rcases matrixLookup_some_src hl2 with ⟨rt2, loc2, rfl⟩
      rcases mem_matrixCell_rules.mp hs with ⟨r2, h2, _, hsum⟩
      rcases hfilter r2 h2 with ⟨hmem, hen⟩
      exact ⟨r2, hmem, hen, hsum⟩
  · intro cf hcf s hs
    have hcf2 : cf ∈ findConflicts
        (buildCoverageMatrix (rules.filter (fun x => x.enabled))) := hcf
    rcases findConflicts_rules_src hcf2 s hs with ⟨r2, h2, hsum⟩
    rcases hfilter r2 h2 with ⟨hmem, hen⟩
    exact ⟨r2, hmem, hen, hsum⟩
  · intro w hw ht
    have hw2 : w ∈ generateWarnings
        (findConflicts (buildCoverageMatrix (rules.filter (fun x => x.enabled))))
        (rules.filter (fun x => x.enabled))
        (buildCoverageMatrix (rules.filter (fun x => x.enabled))) := hw
    rcases orphan_warning_src hw2 ht with ⟨r2, h2, haff⟩
    rcases hfilter r2 h2 with ⟨hmem, hen⟩
    exact ⟨r2, hmem, hen, haff⟩

/-- C6 witness: the concrete disabled rule alongside an enabled one. -/
theorem disabled_rule_invisible_w :
    disabledRule.enabled = false
    ∧ couldMatch disabledRule infoContracts = false
    ∧ disabledRule ∉ potentialMatchesOf infoContracts [ruleContractsOnly]
    ∧ analyzeCoverage ([ruleContractsOnly] ++ [disabledRule]) =
        analyzeCoverage [ruleContractsOnly] :=
  ⟨rfl,
   (disabled_rule_invisible disabledRule rfl infoContracts [ruleContractsOnly]).1,
   (disabled_rule_invisible disabledRule rfl infoContracts [ruleContractsOnly]).2.1,
   (disabled_rule_invisible disabledRule rfl infoContracts [ruleContractsOnly]).2.2.2.1⟩

/-- C8: appending an enabled rule never decreases coveredCombinations. -/
theorem analyzeCoverage_monotone (rules : List Rule) (r : Rule)
    (hen : r.enabled = true) (hnew : r ∉ rules) :
    (analyzeCoverage rules).coveredCombinations ≤
      (analyzeCoverage (rules ++ [r])).coveredCombinations := by
  unfold analyzeCoverage
  rw [coveredCombinations_eq, coveredCombinations_eq]
  have hE : (rules ++ [r]).filter (fun x => x.enabled) =
      rules.filter (fun x => x.enabled) ++ [r] := by
    rw [List.filter_append]
    simp [hen]
  rw [hE]
  apply List.sum_le_sum
  intro rt _
  rw [← List.countP_eq_length_filter, ← List.countP_eq_length_filter]
  apply List.countP_mono_left
  intro loc _ hcov
  rcases matrixCell_covered_iff.mp hcov with ⟨r2, hr2, hc2⟩
  exact matrixCell_covered_iff.mpr ⟨r2, List.mem_append_left _ hr2, hc2⟩

/-- C8 witness: adding one enabled rule to the empty rule set. -/
theorem analyzeCoverage_monotone_w :
    ruleContractsOnly.enabled = true ∧ ruleContractsOnly ∉ ([] : List Rule)
    ∧ (analyzeCoverage []).coveredCombinations ≤
        (analyzeCoverage ([] ++ [ruleContractsOnly])).coveredCombinations :=
  ⟨rfl, by simp, analyzeCoverage_monotone [] ruleContractsOnly rfl (by simp)⟩

/-- C9: the state-passing views of route and analyzeCoverage return the
caller's rules unchanged, and a second call on the post-state yields the
same decision and report (deep equality of pure values). -/
theorem route_analyze_pure_idempotent (info : ExtractedInfo) (rules : List Rule) :
    (routeS info rules).2 = rules
    ∧ (routeS info ((routeS info rules).2)).1 = (routeS info rules).1
    ∧ (analyzeCoverageS rules).2 = rules
    ∧ (analyzeCoverageS ((analyzeCoverageS rules).2)).1 = (analyzeCoverageS rules).1 :=
  ⟨rfl, rfl, rfl, rfl⟩


end Routing
